import Mathlib

/-!
Inventory: gathering and publishing the instance inventory

A shallow embedding of `inventory/inventory.go`.  The effects of the Go code
(log lines, calls of the attribute sink) are made explicit as a trace of
events; the external collaborators (clock, attribute sink, data sources,
configuration constants) are inputs.
-/

namespace Inventory

/-! ## External data types -/

/-- One package entry of a package list. -/
structure PkgInfo where
  Name : String
  Arch : String
  Version : String
deriving DecidableEq, Repr

/-- Modelled from the spec: the declaration of packages.Packages lives in the
compute-image-tools library, outside the sources at hand.  The spec describes
it as a composite, a nested named-field group holding a list of package
entries; its zero value is the empty composite. -/
structure Packages where
  entries : List PkgInfo
deriving DecidableEq, Repr

/-- The zero value of packages.Packages. -/
def Packages.zero : Packages := ⟨[]⟩

/-- The fields of osinfo.DistributionInfo that Get reads (the declaration is in
the compute-image-tools library). -/
structure DistributionInfo where
  LongName : String
  ShortName : String
  Version : String
  Kernel : String
  Architecture : String
deriving DecidableEq, Repr

/-- The zero value of DistributionInfo. -/
def DistributionInfo.zero : DistributionInfo := ⟨"", "", "", "", ""⟩

/-! ## The record -/

/-- InstanceInventory is an instances inventory data (inventory.go, lines 39-49). -/
structure InstanceInventory where
  Hostname : String
  LongName : String
  ShortName : String
  Version : String
  Architecture : String
  KernelVersion : String
  OSConfigAgentVersion : String
  InstalledPackages : Packages
  PackageUpdates : Packages
deriving DecidableEq, Repr

/-- The zero value, as produced by the composite literal at line 81. -/
def InstanceInventory.zero : InstanceInventory :=
  ⟨"", "", "", "", "", "", "", Packages.zero, Packages.zero⟩

/-! ## Reflection -/

/-- The kinds (reflect.Kind) of the values of the model. -/
inductive Kind where
  | Bool
  | Int
  | Slice
  | String
  | Struct
deriving DecidableEq, Repr

/-- A reflected field value (reflect.Value). -/
inductive Value where
  | bool (b : Bool)
  | int (n : Int)
  | slice (xs : List String)
  | string (s : String)
  | struct (p : Packages)
deriving DecidableEq, Repr

/-- The kind of a value: f.Kind(). -/
def Value.Kind : Value → Kind
  | .bool _ => .Bool
  | .int _ => .Int
  | .slice _ => .Slice
  | .string _ => .String
  | .struct _ => .Struct

/-- A struct field as seen through reflection: t.Field(i).Name and e.Field(i). -/
structure Field where
  Name : String
  value : Value
deriving DecidableEq, Repr

/-- The fields of an InstanceInventory in declaration order:
e.Field(0) .. e.Field(e.NumField()-1) of reflect.ValueOf(state).Elem(). -/
def reflectFields (state : InstanceInventory) : List Field :=
  [ ⟨"Hostname", .string state.Hostname⟩,
    ⟨"LongName", .string state.LongName⟩,
    ⟨"ShortName", .string state.ShortName⟩,
    ⟨"Version", .string state.Version⟩,
    ⟨"Architecture", .string state.Architecture⟩,
    ⟨"KernelVersion", .string state.KernelVersion⟩,
    ⟨"OSConfigAgentVersion", .string state.OSConfigAgentVersion⟩,
    ⟨"InstalledPackages", .struct state.InstalledPackages⟩,
    ⟨"PackageUpdates", .struct state.PackageUpdates⟩ ]

/-! ## Effects: log entries and sink calls -/

/-- The logger levels used by the package. -/
inductive Level where
  | info
  | debug
  | error
deriving DecidableEq, Repr

/-- A rendered log line. -/
structure LogEntry where
  level : Level
  msg : String
deriving DecidableEq, Repr

/-- The two operations of the attribute sink. -/
inductive Path where
  | PostAttribute
  | PostAttributeCompressed
deriving DecidableEq, Repr

/-- What is handed to the sink: the content of a text reader, or an object
that the sink serialises and compresses. -/
inductive Payload where
  | text (s : String)
  | object (p : Packages)
deriving DecidableEq, Repr

/-- One call of the attribute sink. -/
structure Call where
  path : Path
  key : String
  payload : Payload
deriving DecidableEq, Repr

/-- A behaviour of the attribute sink: given the calls issued before and the
present call, the error it returns (none for nil).  Errors are represented by
their message. -/
abbrev Sink := List Call → Call → Option String

/-- An observable effect. -/
inductive Event where
  | log (e : LogEntry)
  | post (c : Call) (result : Option String)
deriving DecidableEq, Repr

/-- The sink calls of a trace, in order. -/
def callsOf : List Event → List Call
  | [] => []
  | .log _ :: tr => callsOf tr
  | .post c _ :: tr => c :: callsOf tr

/-- The log entries of a trace, in order. -/
def logsOf : List Event → List LogEntry
  | [] => []
  | .log e :: tr => e :: logsOf tr
  | .post _ _ :: tr => logsOf tr

/-- The environment of one run of write: the clock reading
time.Now().UTC().Format(time.RFC3339), the attribute sink, and the rendering
that the formatting verb %+v gives a reflected value. -/
structure World where
  now : String
  sink : Sink
  sprintValue : Value → String

/-- One sink call followed by its error handling (the shape shared by lines
54-56, 66-68 and 70-72): the call is issued, and a non-nil error is logged at
error level under the given label. -/
def post (w : World) (label : String) (c : Call) (tr : List Event) : List Event :=
  match w.sink (callsOf tr) c with
  | some err => tr ++ [.post c (some err), .log ⟨.error, label ++ " error: " ++ err⟩]
  | none => tr ++ [.post c none]

/-- The body of the loop of write (lines 61-73) for one field. -/
def writeField (w : World) (url : String) (tr : List Event) (f : Field) : List Event :=
  let u := url ++ "/" ++ f.Name
  let tr := tr ++ [.log ⟨.debug, "postAttribute " ++ u ++ ": " ++ w.sprintValue f.value⟩]
  match f.value with
  | .string s => post w "postAttribute" ⟨.PostAttribute, u, .text s⟩ tr
  | .struct p => post w "postAttributeCompressed" ⟨.PostAttributeCompressed, u, .object p⟩ tr
  | _ => tr

/-- The function write (lines 51-75) over the reflected field list. -/
def writeFields (w : World) (fields : List Field) (url : String) : List Event :=
  let tr := [.log ⟨.info, "Writing instance inventory."⟩]
  let tr := post w "postAttribute" ⟨.PostAttribute, url ++ "/LastUpdated", .text w.now⟩ tr
  fields.foldl (writeField w url) tr

/-- The function write (lines 51-75). -/
def write (w : World) (state : InstanceInventory) (url : String) : List Event :=
  writeFields w (reflectFields state) url

/-! ## Get -/

/-- The results of the external sources that Get queries, each a Go result
pair, and the agent version. -/
structure Sources where
  Hostname : String × Option String
  GetDistributionInfo : DistributionInfo × Option String
  Version : String
  GetInstalledPackages : Packages × List String
  GetPackageUpdates : Packages × List String

/-- The rendering of an error by the verb %v. -/
def sprintErr : Option String → String
  | some e => e
  | none => "<nil>"

/-- Get generates inventory data (lines 78-114): the record and the log
entries emitted on the way. -/
def Get (src : Sources) : InstanceInventory × List LogEntry :=
  let log : List LogEntry := [⟨.info, "Gathering instance inventory."⟩]
  let hs := InstanceInventory.zero
  let (hn, err) := src.Hostname
  let log := if err ≠ none then
      log ++ [⟨.error, "os.Hostname() error: " ++ sprintErr err⟩] else log
  let hs := { hs with Hostname := hn }
  let (di, err) := src.GetDistributionInfo
  let log := if err ≠ none then
      log ++ [⟨.error, "osinfo.GetDistributionInfo() error: " ++ sprintErr err⟩] else log
  let hs := { hs with LongName := di.LongName }
  let hs := { hs with ShortName := di.ShortName }
  let hs := { hs with Version := di.Version }
  let hs := { hs with KernelVersion := di.Kernel }
  let hs := { hs with Architecture := di.Architecture }
  let hs := { hs with OSConfigAgentVersion := src.Version }
  let (ip, errs) := src.GetInstalledPackages
  let hs := { hs with InstalledPackages := ip }
  let log := if errs.length ≠ 0 then
      log ++ [⟨.error, "packages.GetInstalledPackages() error: " ++ sprintErr err⟩] else log
  let (pu, errs) := src.GetPackageUpdates
  let hs := { hs with PackageUpdates := pu }
  let log := if errs.length ≠ 0 then
      log ++ [⟨.error, "packages.GetPackageUpdates() error: " ++ sprintErr err⟩] else log
  (hs, log)

/-! ## Run -/

/-- The constant inventoryURL (line 35); config.ReportURL is a constant of the
config package and is taken as an argument. -/
def inventoryURL (ReportURL : String) : String := ReportURL ++ "/guestInventory"

/-- The task that Run hands to tasker.Enqueue (line 118): its name and the
effects of running its body write(Get(), inventoryURL). -/
def Run (ReportURL : String) (src : Sources) (w : World) : String × List Event :=
  ("Run OSInventory",
    let r := Get src
    r.2.map Event.log ++ write w r.1 (inventoryURL ReportURL))

/-! ## Specification-side helpers -/

/-- The sink call that the loop body issues for a field, if any. -/
def fieldCall (url : String) (f : Field) : Option Call :=
  match f.value with
  | .string s => some ⟨.PostAttribute, url ++ "/" ++ f.Name, .text s⟩
  | .struct p => some ⟨.PostAttributeCompressed, url ++ "/" ++ f.Name, .object p⟩
  | _ => none

/-- The call that publishes the timestamp. -/
def timestampCall (w : World) (url : String) : Call :=
  ⟨.PostAttribute, url ++ "/LastUpdated", .text w.now⟩

/-! ## Concrete inputs -/

/-- A sink that accepts every call, with a clock reading and a rendering. -/
def quietWorld : World := ⟨"2019-03-01T10:00:00Z", fun _ _ => none, fun _ => "-"⟩

/-- Every source reports an error; the installed-packages source returns the
part it could read along with its errors; the agent version is set. -/
def failingSources : Sources :=
  { Hostname := ("", some "hostname: unavailable")
    GetDistributionInfo := (DistributionInfo.zero, some "uname: unavailable")
    Version := "1.0"
    GetInstalledPackages := (⟨[⟨"bash", "x86_64", "4.4"⟩]⟩, ["rpm: exit status 1"])
    GetPackageUpdates := (Packages.zero, ["yum: exit status 1"]) }

/-- The end-to-end scenario: hostname vm-1, no distribution info, one entry
from each package source. -/
def scenarioSources : Sources :=
  { Hostname := ("vm-1", none)
    GetDistributionInfo := (DistributionInfo.zero, some "uname: unavailable")
    Version := "1.0"
    GetInstalledPackages := (⟨[⟨"bash", "x86_64", "4.4"⟩]⟩, [])
    GetPackageUpdates := (⟨[⟨"curl", "x86_64", "7.61"⟩]⟩, []) }

/-- The world of quietWorld one second later. -/
def laterWorld : World := ⟨"2019-03-01T10:00:01Z", fun _ _ => none, fun _ => "-"⟩

/-- The calls received by a recording sink over two runs of write with the
same record and base URL. -/
def twoRuns (w₁ w₂ : World) (state : InstanceInventory) (url : String) : List Call :=
  callsOf (write w₁ state url) ++ callsOf (write w₂ state url)

/-- A sink that refuses the write of the Hostname key under base u. -/
def refusingWorld : World :=
  ⟨"2019-03-01T10:00:00Z",
    fun _ c => if c.key = "u/Hostname" then some "connection refused" else none,
    fun _ => "-"⟩

/-- A field of a kind that is neither string nor struct. -/
def countField : Field := ⟨"Count", .int 3⟩

/-- The label under which write logs a failure of a call on the given path. -/
def labelOf : Path → String
  | .PostAttribute => "postAttribute"
  | .PostAttributeCompressed => "postAttributeCompressed"

/-- The error-level entry that write emits for a failed call. -/
def errorEntry (c : Call) (err : String) : LogEntry :=
  ⟨.error, labelOf c.path ++ " error: " ++ err⟩

/-- The sink calls of a trace with their results, in order. -/
def postsOf : List Event → List (Call × Option String)
  | [] => []
  | .log _ :: tr => postsOf tr
  | .post c r :: tr => (c, r) :: postsOf tr

/-- The events that matter for error reporting: sink calls and error-level
log entries. -/
def significant : Event → Bool
  | .log e => decide (e.level = .error)
  | .post _ _ => true

/-- What error reporting owes a sink call: the call itself, followed by one
error-level entry with the error when the call failed, and by nothing when
it succeeded. -/
def reported : Call × Option String → List Event
  | (c, some err) => [.post c (some err), .log (errorEntry c err)]
  | (c, none) => [.post c none]

/-- The results a sink gives a sequence of calls issued after the calls hist. -/
def replay (sink : Sink) : List Call → List Call → List (Call × Option String)
  | _, [] => []
  | hist, c :: cs => (c, sink hist c) :: replay sink (hist ++ [c]) cs

/-- Whether the text of a log entry contains the given string. -/
def mentions (e : LogEntry) (s : String) : Bool :=
  decide (s.data <:+: e.msg.data)

/-- The invariant of write on its trace: the recorded results are those of the
sink, and the significant events are the reports owed to the calls. -/
def Reported (w : World) (tr : List Event) : Prop :=
  postsOf tr = replay w.sink [] (callsOf tr) ∧
    tr.filter significant = (postsOf tr).flatMap reported

/-! ## Basic facts about traces -/

theorem callsOf_append (a b : List Event) : callsOf (a ++ b) = callsOf a ++ callsOf b := by
  induction a with
  | nil => rfl
  | cons e a ih => cases e <;> simp [callsOf, ih]

theorem logsOf_append (a b : List Event) : logsOf (a ++ b) = logsOf a ++ logsOf b := by
  induction a with
  | nil => rfl
  | cons e a ih => cases e <;> simp [logsOf, ih]

theorem callsOf_post (w : World) (label : String) (c : Call) (tr : List Event) :
    callsOf (post w label c tr) = callsOf tr ++ [c] := by
  unfold post
  cases w.sink (callsOf tr) c <;> simp [callsOf_append, callsOf]

theorem callsOf_writeField (w : World) (url : String) (tr : List Event) (f : Field) :
    callsOf (writeField w url tr f) = callsOf tr ++ (fieldCall url f).toList := by
  obtain ⟨name, v⟩ := f
  cases v <;> simp [writeField, fieldCall, callsOf_post, callsOf_append, callsOf]

theorem callsOf_foldl (w : World) (url : String) (fs : List Field) (tr : List Event) :
    callsOf (fs.foldl (writeField w url) tr) = callsOf tr ++ fs.filterMap (fieldCall url) := by
  induction fs generalizing tr with
  | nil => simp
  | cons f fs ih =>
    rw [List.foldl_cons, ih, callsOf_writeField]
    cases h : fieldCall url f <;> simp [List.filterMap_cons, h]

theorem callsOf_writeFields (w : World) (fs : List Field) (url : String) :
    callsOf (writeFields w fs url) = timestampCall w url :: fs.filterMap (fieldCall url) := by
  simp [writeFields, callsOf_foldl, callsOf_post, callsOf, timestampCall]

theorem callsOf_write (w : World) (state : InstanceInventory) (url : String) :
    callsOf (write w state url) =
      [ ⟨.PostAttribute, url ++ "/LastUpdated", .text w.now⟩,
        ⟨.PostAttribute, url ++ "/Hostname", .text state.Hostname⟩,
        ⟨.PostAttribute, url ++ "/LongName", .text state.LongName⟩,
        ⟨.PostAttribute, url ++ "/ShortName", .text state.ShortName⟩,
        ⟨.PostAttribute, url ++ "/Version", .text state.Version⟩,
        ⟨.PostAttribute, url ++ "/Architecture", .text state.Architecture⟩,
        ⟨.PostAttribute, url ++ "/KernelVersion", .text state.KernelVersion⟩,
        ⟨.PostAttribute, url ++ "/OSConfigAgentVersion", .text state.OSConfigAgentVersion⟩,
        ⟨.PostAttributeCompressed, url ++ "/InstalledPackages", .object state.InstalledPackages⟩,
        ⟨.PostAttributeCompressed, url ++ "/PackageUpdates", .object state.PackageUpdates⟩ ] := by
  simp [write, callsOf_writeFields, reflectFields, fieldCall, timestampCall, String.append_assoc]

/-! ## The calls issued by write -/

/-- C1: for every record, base URL and behaviour of the sink, write issues
exactly 1 + fieldCount sink calls, one for the timestamp and one for each of
the nine fields of the record, whichever calls fail. -/
theorem write_call_count (w : World) (state : InstanceInventory) (url : String) :
    (callsOf (write w state url)).length = 1 + (reflectFields state).length ∧
      (reflectFields state).length = 9 := by
  rw [callsOf_write]
  simp [reflectFields]

/-- C2: the sequence of sink calls of write does not depend on the behaviour
of the sink: with the same clock reading two sinks receive the very same
calls, and in any case the same paths and keys and the same calls for the
fields of the record. -/
theorem write_isolation (now₁ now₂ : String) (sink₁ sink₂ : Sink) (sv₁ sv₂ : Value → String)
    (state : InstanceInventory) (url : String) :
    callsOf (write ⟨now₁, sink₁, sv₁⟩ state url) = callsOf (write ⟨now₁, sink₂, sv₂⟩ state url) ∧
    (callsOf (write ⟨now₁, sink₁, sv₁⟩ state url)).map (fun c => (c.path, c.key)) =
      (callsOf (write ⟨now₂, sink₂, sv₂⟩ state url)).map (fun c => (c.path, c.key)) ∧
    (callsOf (write ⟨now₁, sink₁, sv₁⟩ state url)).tail =
      (callsOf (write ⟨now₂, sink₂, sv₂⟩ state url)).tail := by
  simp [callsOf_write]

/-- C3: write sends every string field of the record through PostAttribute
with the string as payload, verbatim, and every struct field through
PostAttributeCompressed with the value of the field as payload, whatever the
name and the content (the empty string and the empty composite included); the
same holds of the loop over any field list and of the loop body, and the path
is a function of the kind of the field alone. -/
theorem write_path_by_kind :
    (∀ (w : World) (state : InstanceInventory) (url : String),
      callsOf (write w state url) =
        [ ⟨.PostAttribute, url ++ "/LastUpdated", .text w.now⟩,
          ⟨.PostAttribute, url ++ "/Hostname", .text state.Hostname⟩,
          ⟨.PostAttribute, url ++ "/LongName", .text state.LongName⟩,
          ⟨.PostAttribute, url ++ "/ShortName", .text state.ShortName⟩,
          ⟨.PostAttribute, url ++ "/Version", .text state.Version⟩,
          ⟨.PostAttribute, url ++ "/Architecture", .text state.Architecture⟩,
          ⟨.PostAttribute, url ++ "/KernelVersion", .text state.KernelVersion⟩,
          ⟨.PostAttribute, url ++ "/OSConfigAgentVersion", .text state.OSConfigAgentVersion⟩,
          ⟨.PostAttributeCompressed, url ++ "/InstalledPackages",
            .object state.InstalledPackages⟩,
          ⟨.PostAttributeCompressed, url ++ "/PackageUpdates",
            .object state.PackageUpdates⟩ ]) ∧
    (∀ (w : World) (url : String),
      callsOf (write w InstanceInventory.zero url) =
        [ ⟨.PostAttribute, url ++ "/LastUpdated", .text w.now⟩,
          ⟨.PostAttribute, url ++ "/Hostname", .text ""⟩,
          ⟨.PostAttribute, url ++ "/LongName", .text ""⟩,
          ⟨.PostAttribute, url ++ "/ShortName", .text ""⟩,
          ⟨.PostAttribute, url ++ "/Version", .text ""⟩,
          ⟨.PostAttribute, url ++ "/Architecture", .text ""⟩,
          ⟨.PostAttribute, url ++ "/KernelVersion", .text ""⟩,
          ⟨.PostAttribute, url ++ "/OSConfigAgentVersion", .text ""⟩,
          ⟨.PostAttributeCompressed, url ++ "/InstalledPackages", .object ⟨[]⟩⟩,
          ⟨.PostAttributeCompressed, url ++ "/PackageUpdates", .object ⟨[]⟩⟩ ]) ∧
    (∀ (w : World) (fs : List Field) (url : String),
      callsOf (writeFields w fs url) =
        ⟨.PostAttribute, url ++ "/LastUpdated", .text w.now⟩ ::
          fs.flatMap (fun f => match f.value with
            | .string s => [⟨.PostAttribute, url ++ "/" ++ f.Name, .text s⟩]
            | .struct p => [⟨.PostAttributeCompressed, url ++ "/" ++ f.Name, .object p⟩]
            | _ => [])) ∧
    (∀ (w : World) (url : String) (tr : List Event) (name s : String),
      callsOf (writeField w url tr ⟨name, .string s⟩) =
        callsOf tr ++ [⟨.PostAttribute, url ++ "/" ++ name, .text s⟩]) ∧
    (∀ (w : World) (url : String) (tr : List Event) (name : String) (p : Packages),
      callsOf (writeField w url tr ⟨name, .struct p⟩) =
        callsOf tr ++ [⟨.PostAttributeCompressed, url ++ "/" ++ name, .object p⟩]) ∧
    (∃ g : Kind → List Path, g .String = [.PostAttribute] ∧
      g .Struct = [.PostAttributeCompressed] ∧
      (∀ (w : World) (url : String) (tr : List Event) (f : Field),
        (callsOf (writeField w url tr f)).map (fun c => c.path) =
          (callsOf tr).map (fun c => c.path) ++ g f.value.Kind) ∧
      (∀ (w : World) (fs : List Field) (url : String),
        (callsOf (writeFields w fs url)).map (fun c => c.path) =
          .PostAttribute :: fs.flatMap (fun f => g f.value.Kind)) ∧
      (∀ (w : World) (state : InstanceInventory) (url : String),
        (callsOf (write w state url)).map (fun c => c.path) =
          .PostAttribute :: (reflectFields state).flatMap (fun f => g f.value.Kind))) := by
  refine ⟨callsOf_write, ?_, ?_, ?_, ?_, ?_⟩
  · intro w url
    rw [callsOf_write]
    rfl
  · intro w fs url
    rw [callsOf_writeFields]
    simp only [timestampCall, List.cons.injEq, true_and]
    induction fs with
    | nil => rfl
    | cons f fs ih =>
      obtain ⟨name, v⟩ := f
      cases v <;> simp [List.filterMap_cons, fieldCall, ih]
  · intro w url tr name s
    simp [callsOf_writeField, fieldCall]
  · intro w url tr name p
    simp [callsOf_writeField, fieldCall]
  · have hg : ∀ (w : World) (fs : List Field) (url : String),
        (callsOf (writeFields w fs url)).map (fun c => c.path) =
          .PostAttribute :: fs.flatMap (fun f => match f.value.Kind with
            | .String => [.PostAttribute]
            | .Struct => [.PostAttributeCompressed]
            | _ => []) := by
      intro w fs url
      rw [callsOf_writeFields]
      simp only [timestampCall, List.map_cons, List.cons.injEq, true_and]
      induction fs with
      | nil => rfl
      | cons f fs ih =>
        obtain ⟨name, v⟩ := f
        cases v <;> simp [List.filterMap_cons, fieldCall, Value.Kind, ih]
    refine ⟨fun k => match k with
      | .String => [.PostAttribute]
      | .Struct => [.PostAttributeCompressed]
      | _ => [], rfl, rfl, ?_, hg, fun w state url => hg w (reflectFields state) url⟩
    intro w url tr f
    obtain ⟨name, v⟩ := f
    cases v <;> simp [callsOf_writeField, fieldCall, Value.Kind]

/-- C4: the keys of the sink calls of write are the timestamp key followed by
base/name for each field in declaration order, and the task of Run issues
these calls with base = ReportURL/guestInventory. -/
theorem write_keys (w : World) (state : InstanceInventory) (url ReportURL : String)
    (src : Sources) :
    (callsOf (write w state url)).map (fun c => c.key) =
      [ url ++ "/LastUpdated", url ++ "/Hostname", url ++ "/LongName", url ++ "/ShortName",
        url ++ "/Version", url ++ "/Architecture", url ++ "/KernelVersion",
        url ++ "/OSConfigAgentVersion", url ++ "/InstalledPackages",
        url ++ "/PackageUpdates" ] ∧
    (callsOf (write w state url)).map (fun c => c.key) =
      (url ++ "/LastUpdated") :: (reflectFields state).map (fun f => url ++ "/" ++ f.Name) ∧
    inventoryURL ReportURL = ReportURL ++ "/guestInventory" ∧
    callsOf (Run ReportURL src w).2 =
      callsOf (write w (Get src).1 (ReportURL ++ "/guestInventory")) := by
  refine ⟨?_, ?_, rfl, ?_⟩
  · simp [callsOf_write]
  · simp [callsOf_write, reflectFields, String.append_assoc]
  · have h : ∀ l : List LogEntry, callsOf (l.map Event.log) = [] := by
      intro l
      induction l with
      | nil => rfl
      | cons e l ih => simpa [callsOf] using ih
    simp [Run, callsOf_append, h, inventoryURL]

/-! ## The record built by Get -/

/-- C10: whatever the sources return, Get copies the returned values into the
record and sets the agent version; the errors returned along with the values
have no influence on any field. -/
theorem Get_record (hn : String) (di : DistributionInfo) (v : String) (ip pu : Packages)
    (e₁ e₂ : Option String) (errs₁ errs₂ : List String) :
    (Get ⟨(hn, e₁), (di, e₂), v, (ip, errs₁), (pu, errs₂)⟩).1 =
      { Hostname := hn
        LongName := di.LongName
        ShortName := di.ShortName
        Version := di.Version
        Architecture := di.Architecture
        KernelVersion := di.Kernel
        OSConfigAgentVersion := v
        InstalledPackages := ip
        PackageUpdates := pu } := by
  simp [Get, InstanceInventory.zero]

/-- C5, as stated, fails: with every source reporting an error the record still
carries the agent version, and the packages returned along with the errors. -/
theorem Get_all_failing_not_empty :
    failingSources.Hostname.2 ≠ none ∧ failingSources.GetDistributionInfo.2 ≠ none ∧
    failingSources.GetInstalledPackages.2 ≠ [] ∧ failingSources.GetPackageUpdates.2 ≠ [] ∧
    (Get failingSources).1.OSConfigAgentVersion ≠ "" ∧
    (Get failingSources).1.InstalledPackages ≠ Packages.zero := by
  simp [Get, failingSources, InstanceInventory.zero, Packages.zero]

/-- C5, amended: Get returns a record for every result of the sources, the
record of the values returned, with or without an error, and of the agent
version; when every source returns an error together with the zero value of
its result, all fields of the record are empty except OSConfigAgentVersion,
which is the agent version. -/
theorem Get_all_failing :
    (∀ (hn : String) (di : DistributionInfo) (v : String) (ip pu : Packages)
        (e₁ e₂ : Option String) (errs₁ errs₂ : List String),
      (Get ⟨(hn, e₁), (di, e₂), v, (ip, errs₁), (pu, errs₂)⟩).1 =
        { Hostname := hn
          LongName := di.LongName
          ShortName := di.ShortName
          Version := di.Version
          Architecture := di.Architecture
          KernelVersion := di.Kernel
          OSConfigAgentVersion := v
          InstalledPackages := ip
          PackageUpdates := pu }) ∧
    (∀ (e₁ e₂ v err₁ err₂ : String) (errs₁ errs₂ : List String),
      (Get ⟨("", some e₁), (DistributionInfo.zero, some e₂), v,
          (Packages.zero, err₁ :: errs₁), (Packages.zero, err₂ :: errs₂)⟩).1 =
        { Hostname := ""
          LongName := ""
          ShortName := ""
          Version := ""
          Architecture := ""
          KernelVersion := ""
          OSConfigAgentVersion := v
          InstalledPackages := ⟨[]⟩
          PackageUpdates := ⟨[]⟩ }) := by
  constructor
  · intro hn di v ip pu e₁ e₂ errs₁ errs₂
    simp [Get, InstanceInventory.zero]
  · intro e₁ e₂ v err₁ err₂ errs₁ errs₂
    simp [Get, InstanceInventory.zero, DistributionInfo.zero, Packages.zero]

/-- C6, as stated, fails: in the scenario write issues ten sink calls, not nine. -/
theorem scenario_not_nine_calls :
    (callsOf (write quietWorld (Get scenarioSources).1 "u")).length ≠ 9 := by
  rw [callsOf_write]
  simp

/-- C6, amended: in the scenario (hostname vm-1, the distribution source
failing with the zero value, one entry from each package source) the record
has Hostname vm-1, empty distribution fields and one entry in each package
field, and write on it issues ten sink calls, the timestamp and nine fields,
whatever the sink does. -/
theorem scenario_end_to_end (e v : String) (p q : PkgInfo) (w : World) (url : String) :
    (Get ⟨("vm-1", none), (DistributionInfo.zero, some e), v, (⟨[p]⟩, []), (⟨[q]⟩, [])⟩).1 =
      { Hostname := "vm-1"
        LongName := ""
        ShortName := ""
        Version := ""
        Architecture := ""
        KernelVersion := ""
        OSConfigAgentVersion := v
        InstalledPackages := ⟨[p]⟩
        PackageUpdates := ⟨[q]⟩ } ∧
    (callsOf (write w
      (Get ⟨("vm-1", none), (DistributionInfo.zero, some e), v, (⟨[p]⟩, []), (⟨[q]⟩, [])⟩).1
      url)).length = 10 := by
  refine ⟨?_, ?_⟩
  · simp [Get, InstanceInventory.zero, DistributionInfo.zero]
  · rw [callsOf_write]
    simp

/-! ## Running write twice -/

theorem str_append_right_inj (u a b : String) : u ++ a = u ++ b ↔ a = b := by
  constructor
  · intro h
    have h2 := congrArg String.data h
    simp only [String.data_append, List.append_cancel_left_eq] at h2
    exact String.ext h2
  · intro h
    rw [h]

/-- C7, as stated, fails: the two calls for the LastUpdated key carry the clock
readings of the two runs, which differ when the runs are a second apart. -/
theorem two_runs_timestamp_differs :
    ∃ c₁ c₂ : Call,
      (twoRuns quietWorld laterWorld InstanceInventory.zero "u").filter
        (fun c => c.key = "u/LastUpdated") = [c₁, c₂] ∧ c₁.payload ≠ c₂.payload := by
  refine ⟨⟨.PostAttribute, "u/LastUpdated", .text "2019-03-01T10:00:00Z"⟩,
    ⟨.PostAttribute, "u/LastUpdated", .text "2019-03-01T10:00:01Z"⟩, ?_, by decide⟩
  simp only [twoRuns, callsOf_write]
  decide

/-- C7, amended: over two runs of write with the same record and base URL a
recording sink receives, for every key written, exactly two calls, the one of
the first run and the one of the second; the two calls for a field key are
identical, and the two calls for the LastUpdated key carry the clock readings
of their runs. -/
theorem two_runs_calls (w₁ w₂ : World) (state : InstanceInventory) (url : String) :
    (callsOf (write w₁ state url)).map
        (fun c => (twoRuns w₁ w₂ state url).filter (fun d => d.key = c.key)) =
      List.zipWith (fun a b => [a, b]) (callsOf (write w₁ state url))
        (callsOf (write w₂ state url)) ∧
    (callsOf (write w₁ state url)).tail = (callsOf (write w₂ state url)).tail ∧
    (callsOf (write w₁ state url)).head? =
      some ⟨.PostAttribute, url ++ "/LastUpdated", .text w₁.now⟩ ∧
    (callsOf (write w₂ state url)).head? =
      some ⟨.PostAttribute, url ++ "/LastUpdated", .text w₂.now⟩ := by
  simp only [twoRuns, callsOf_write]
  simp [List.filter_cons, str_append_right_inj]

/-! ## Error reporting -/

theorem postsOf_append (a b : List Event) : postsOf (a ++ b) = postsOf a ++ postsOf b := by
  induction a with
  | nil => rfl
  | cons e a ih => cases e <;> simp [postsOf, ih]

theorem replay_append (sink : Sink) (hist a b : List Call) :
    replay sink hist (a ++ b) = replay sink hist a ++ replay sink (hist ++ a) b := by
  induction a generalizing hist with
  | nil => simp [replay]
  | cons c a ih => simp [replay, ih]

theorem Reported_post (w : World) (c : Call) (tr : List Event) (h : Reported w tr) :
    Reported w (post w (labelOf c.path) c tr) := by
  obtain ⟨h1, h2⟩ := h
  unfold post
  cases hs : w.sink (callsOf tr) c with
  | none =>
    constructor
    · simp [postsOf_append, callsOf_append, replay_append, postsOf, callsOf, replay, h1, hs]
    · simp [postsOf_append, postsOf, List.filter_append, h2, significant, reported]
  | some err =>
    constructor
    · simp [postsOf_append, callsOf_append, replay_append, postsOf, callsOf, replay, h1, hs]
    · simp [postsOf_append, postsOf, List.filter_append, h2, significant, reported, errorEntry]

theorem Reported_debug (w : World) (msg : String) (tr : List Event) (h : Reported w tr) :
    Reported w (tr ++ [.log ⟨.debug, msg⟩]) := by
  obtain ⟨h1, h2⟩ := h
  constructor
  · simp [postsOf_append, callsOf_append, postsOf, callsOf, h1]
  · simp [postsOf_append, postsOf, List.filter_append, h2, significant]

theorem Reported_writeField (w : World) (url : String) (tr : List Event) (f : Field)
    (h : Reported w tr) : Reported w (writeField w url tr f) := by
  obtain ⟨name, v⟩ := f
  cases v with
  | string s =>
    exact Reported_post w ⟨.PostAttribute, url ++ "/" ++ name, .text s⟩ _ (Reported_debug w _ tr h)
  | struct p =>
    exact Reported_post w ⟨.PostAttributeCompressed, url ++ "/" ++ name, .object p⟩ _
      (Reported_debug w _ tr h)
  | bool b => exact Reported_debug w _ tr h
  | int n => exact Reported_debug w _ tr h
  | slice xs => exact Reported_debug w _ tr h

theorem Reported_foldl (w : World) (url : String) (fs : List Field) (tr : List Event)
    (h : Reported w tr) : Reported w (fs.foldl (writeField w url) tr) := by
  induction fs generalizing tr with
  | nil => exact h
  | cons f fs ih => exact ih _ (Reported_writeField w url tr f h)

theorem Reported_writeFields (w : World) (fs : List Field) (url : String) :
    Reported w (writeFields w fs url) := by
  unfold writeFields
  apply Reported_foldl
  apply Reported_post w ⟨.PostAttribute, url ++ "/LastUpdated", .text w.now⟩
  constructor <;> simp [postsOf, callsOf, replay, significant]

/-- C8, as stated, fails: when the sink refuses the Hostname write, the one
error-level entry that write emits holds the error and not the key. -/
theorem error_entry_lacks_key :
    Event.post ⟨.PostAttribute, "u/Hostname", .text ""⟩ (some "connection refused") ∈
      write refusingWorld InstanceInventory.zero "u" ∧
    (logsOf (write refusingWorld InstanceInventory.zero "u")).filter
        (fun e => e.level = .error) =
      [⟨.error, "postAttribute error: connection refused"⟩] ∧
    mentions ⟨.error, "postAttribute error: connection refused"⟩ "u/Hostname" = false ∧
    mentions ⟨.error, "postAttribute error: connection refused"⟩ "connection refused" = true := by
  decide

theorem writeField_starts (w : World) (url : String) (tr : List Event) (f : Field) :
    ∃ rest : List Event, writeField w url tr f =
      tr ++ .log ⟨.debug, "postAttribute " ++ (url ++ "/" ++ f.Name) ++ ": " ++
        w.sprintValue f.value⟩ :: rest := by
  obtain ⟨name, v⟩ := f
  cases v with
  | string s =>
    simp only [writeField, post]
    split <;> exact ⟨_, by rw [List.append_assoc]; rfl⟩
  | struct p =>
    simp only [writeField, post]
    split <;> exact ⟨_, by rw [List.append_assoc]; rfl⟩
  | bool b => exact ⟨[], rfl⟩
  | int n => exact ⟨[], rfl⟩
  | slice xs => exact ⟨[], rfl⟩

theorem foldl_extends (w : World) (url : String) (fs : List Field) (tr : List Event) :
    ∃ suffix : List Event, fs.foldl (writeField w url) tr = tr ++ suffix := by
  induction fs generalizing tr with
  | nil => exact ⟨[], by simp⟩
  | cons f fs ih =>
    obtain ⟨r₁, h₁⟩ := writeField_starts w url tr f
    obtain ⟨r₂, h₂⟩ := ih (writeField w url tr f)
    exact ⟨_, by rw [List.foldl_cons, h₂, h₁, List.append_assoc]⟩

theorem writeField_posts (w : World) (url : String) (tr : List Event) (f : Field) (c : Call)
    (hc : fieldCall url f = some c) :
    ∃ (r : Option String) (rest : List Event), writeField w url tr f =
      tr ++ .log ⟨.debug, "postAttribute " ++ (url ++ "/" ++ f.Name) ++ ": " ++
        w.sprintValue f.value⟩ :: .post c r :: rest := by
  obtain ⟨name, v⟩ := f
  cases v with
  | string s =>
    simp only [fieldCall, Option.some.injEq] at hc
    subst hc
    simp only [writeField, post]
    split <;> exact ⟨_, _, by rw [List.append_assoc]; rfl⟩
  | struct p =>
    simp only [fieldCall, Option.some.injEq] at hc
    subst hc
    simp only [writeField, post]
    split <;> exact ⟨_, _, by rw [List.append_assoc]; rfl⟩
  | bool b => simp [fieldCall] at hc
  | int n => simp [fieldCall] at hc
  | slice xs => simp [fieldCall] at hc

theorem writeFields_posts (w : World) (url : String) (fs : List Field) (f : Field) (c : Call)
    (hf : f ∈ fs) (hc : fieldCall url f = some c) :
    ∃ (pre : List Event) (r : Option String) (rest : List Event), writeFields w fs url =
      pre ++ .log ⟨.debug, "postAttribute " ++ (url ++ "/" ++ f.Name) ++ ": " ++
        w.sprintValue f.value⟩ :: .post c r :: rest := by
  obtain ⟨fs₁, fs₂, rfl⟩ := List.append_of_mem hf
  simp only [writeFields, List.foldl_append, List.foldl_cons]
  generalize List.foldl (writeField w url) _ fs₁ = tr
  obtain ⟨r, rest, h₁⟩ := writeField_posts w url tr f c hc
  obtain ⟨suffix, h₂⟩ := foldl_extends w url fs₂ (writeField w url tr f)
  exact ⟨tr, r, rest ++ suffix, by rw [h₂, h₁]; simp⟩

theorem fieldCall_reflectFields (state : InstanceInventory) (url : String) (f : Field)
    (hf : f ∈ reflectFields state) :
    ∃ c : Call, fieldCall url f = some c ∧ c.key = url ++ "/" ++ f.Name := by
  simp only [reflectFields, List.mem_cons, List.mem_singleton, List.not_mem_nil, or_false] at hf
  rcases hf with h | h | h | h | h | h | h | h | h <;> subst h <;> exact ⟨_, rfl, rfl⟩

/-- C8, amended: in the trace of write the results recorded are those the sink
gave; every failed sink call, the LastUpdated call included, is followed by
exactly one error-level entry, whose text is the label of the call path,
the word error and the error returned by the sink, and which is the same
whatever the key of the call; every successful call is followed by none, and
there is no other error-level entry; all ten calls are issued whichever fail.
For every field of the record the key is in the debug-level entry that
write emits right before the call for the field; the LastUpdated call comes
right after the opening info-level entry. -/
theorem write_error_entries (w : World) (state : InstanceInventory) (url : String)
    (f : Field) (hf : f ∈ reflectFields state) :
    postsOf (write w state url) = replay w.sink [] (callsOf (write w state url)) ∧
    (write w state url).filter significant = (postsOf (write w state url)).flatMap reported ∧
    (postsOf (write w state url)).length = 10 ∧
    (∀ (c : Call) (err : String), mentions (errorEntry c err) err = true) ∧
    (∀ (tr : List Event) (f : Field),
      ∃ (e : LogEntry) (rest : List Event), e.level = .debug ∧
        mentions e (url ++ "/" ++ f.Name) = true ∧
        writeField w url tr f = tr ++ .log e :: rest) ∧
    (∀ (c : Call) (err : String),
      errorEntry c err = ⟨.error, labelOf c.path ++ " error: " ++ err⟩) ∧
    (∀ (p : Path) (k₁ k₂ : String) (v₁ v₂ : Payload) (err : String),
      errorEntry ⟨p, k₁, v₁⟩ err = errorEntry ⟨p, k₂, v₂⟩ err) ∧
    labelOf .PostAttribute = "postAttribute" ∧
    labelOf .PostAttributeCompressed = "postAttributeCompressed" ∧
    (∃ (pre : List Event) (c : Call) (r : Option String) (rest : List Event),
      write w state url =
        pre ++ .log ⟨.debug, "postAttribute " ++ (url ++ "/" ++ f.Name) ++ ": " ++
          w.sprintValue f.value⟩ :: .post c r :: rest ∧
      c.key = url ++ "/" ++ f.Name ∧
      mentions ⟨.debug, "postAttribute " ++ (url ++ "/" ++ f.Name) ++ ": " ++
        w.sprintValue f.value⟩ (url ++ "/" ++ f.Name) = true) ∧
    (∃ rest : List Event, write w state url =
      .log ⟨.info, "Writing instance inventory."⟩ ::
        .post ⟨.PostAttribute, url ++ "/LastUpdated", .text w.now⟩
          (w.sink [] ⟨.PostAttribute, url ++ "/LastUpdated", .text w.now⟩) :: rest) := by
  have h := Reported_writeFields w (reflectFields state) url
  have hm : ∀ g : Field, mentions ⟨.debug, "postAttribute " ++ (url ++ "/" ++ g.Name) ++ ": " ++
      w.sprintValue g.value⟩ (url ++ "/" ++ g.Name) = true := by
    intro g
    simp only [mentions, decide_eq_true_eq]
    exact ⟨"postAttribute ".data, (": " ++ w.sprintValue g.value).data,
      by simp [String.data_append]⟩
  refine ⟨h.1, h.2, ?_, ?_, ?_, fun _ _ => rfl, fun _ _ _ _ _ _ => rfl, rfl, rfl, ?_, ?_⟩
  · have hl : (postsOf (write w state url)).length = (callsOf (write w state url)).length := by
      generalize write w state url = tr
      induction tr with
      | nil => rfl
      | cons e tr ih => cases e <;> simp [postsOf, callsOf, ih]
    rw [hl, callsOf_write]
    rfl
  · intro c err
    simp only [mentions, decide_eq_true_eq]
    exact ⟨(labelOf c.path ++ " error: ").data, [], by simp [errorEntry, String.data_append]⟩
  · intro tr g
    obtain ⟨rest, hrest⟩ := writeField_starts w url tr g
    exact ⟨_, rest, rfl, hm g, hrest⟩
  · obtain ⟨c, hc, hk⟩ := fieldCall_reflectFields state url f hf
    obtain ⟨pre, r, rest, hw⟩ := writeFields_posts w url (reflectFields state) f c hf hc
    exact ⟨pre, c, r, rest, hw, hk, hm f⟩
  · simp only [write, writeFields]
    obtain ⟨suffix, hs⟩ := foldl_extends w url (reflectFields state)
      (post w "postAttribute" ⟨.PostAttribute, url ++ "/LastUpdated", .text w.now⟩
        [.log ⟨.info, "Writing instance inventory."⟩])
    rw [hs]
    simp only [post, callsOf]
    split
    · rename_i err heq
      rw [heq]
      exact ⟨_, rfl⟩
    · rename_i heq
      rw [heq]
      exact ⟨_, rfl⟩

/-- The amended C8 at the Hostname field of the empty record, with a sink that
refuses the Hostname write. -/
theorem write_error_entries_witness :
    (⟨"Hostname", .string ""⟩ : Field) ∈ reflectFields InstanceInventory.zero ∧
    (write refusingWorld InstanceInventory.zero "u").filter significant =
      (postsOf (write refusingWorld InstanceInventory.zero "u")).flatMap reported :=
  ⟨by decide,
    (write_error_entries refusingWorld InstanceInventory.zero "u" ⟨"Hostname", .string ""⟩
      (by decide)).2.1⟩

/-! ## Fields of other kinds -/

/-- C9, as stated, fails: for a field of kind int the loop body issues no sink
call but does emit a log entry, the debug-level entry that precedes the
switch. -/
theorem other_kind_logs_debug :
    countField.value.Kind ≠ .String ∧ countField.value.Kind ≠ .Struct ∧
    callsOf (writeField quietWorld "u" [] countField) = [] ∧
    logsOf (writeField quietWorld "u" [] countField) =
      [⟨.debug, "postAttribute u/Count: -"⟩] ∧
    logsOf (writeField quietWorld "u" [] countField) ≠ [] := by
  decide

/-- C9, amended: for a field whose kind is neither string nor struct the loop
body issues no sink call and emits no error-level or info-level entry; its only
effect is the debug-level entry emitted before the switch; the calls,
results and error entries of the other fields are what they are without the
field. -/
theorem writeField_other_kind (w : World) (url : String) (tr : List Event) (f : Field)
    (fs₁ fs₂ : List Field) (h₁ : f.value.Kind ≠ .String) (h₂ : f.value.Kind ≠ .Struct) :
    writeField w url tr f =
      tr ++ [.log ⟨.debug, "postAttribute " ++ (url ++ "/" ++ f.Name) ++ ": " ++
        w.sprintValue f.value⟩] ∧
    callsOf (writeFields w (fs₁ ++ f :: fs₂) url) = callsOf (writeFields w (fs₁ ++ fs₂) url) ∧
    (writeFields w (fs₁ ++ f :: fs₂) url).filter significant =
      (writeFields w (fs₁ ++ fs₂) url).filter significant := by
  have hc : fieldCall url f = none := by
    obtain ⟨name, v⟩ := f
    cases v <;> simp_all [fieldCall, Value.Kind]
  have hcalls : callsOf (writeFields w (fs₁ ++ f :: fs₂) url) =
      callsOf (writeFields w (fs₁ ++ fs₂) url) := by
    simp [callsOf_writeFields, List.filterMap_append, List.filterMap_cons, hc]
  refine ⟨?_, hcalls, ?_⟩
  · obtain ⟨name, v⟩ := f
    cases v <;> simp_all [writeField, Value.Kind]
  · have ha := Reported_writeFields w (fs₁ ++ f :: fs₂) url
    have hb := Reported_writeFields w (fs₁ ++ fs₂) url
    rw [ha.2, hb.2, ha.1, hb.1, hcalls]

/-- The amended C9 at the field Count of kind int, in a world whose sink accepts
every call. -/
theorem writeField_other_kind_witness :
    countField.value.Kind ≠ .String ∧ countField.value.Kind ≠ .Struct ∧
    writeField quietWorld "u" [] countField =
      [] ++ [.log ⟨.debug, "postAttribute " ++ ("u" ++ "/" ++ countField.Name) ++ ": " ++
        quietWorld.sprintValue countField.value⟩] :=
  ⟨by decide, by decide,
    (writeField_other_kind quietWorld "u" [] countField [] [] (by decide) (by decide)).1⟩

end Inventory
